import Mathlib

/-!
Verification of the outbound-request resilience subsystem of the cliply
repository: the YouTube request queue (serializer with retry), the
yt-dlp extraction strategy loop with stderr classification, URL
validation and normalization, the proxy pool (rotation, failure
tracking, cooldown reactivation), the proxy refresh service, and the
video-info result cache.

Each definition is a shallow embedding of the corresponding TypeScript
function. JavaScript strings are modelled as Lean `String`s operated on
through their `List Char` data; `Array.prototype.includes`-style
substring tests, `trim`, `toLowerCase` and `split` are implemented
directly over character lists so that every definition evaluates by
kernel reduction.
-/

set_option maxRecDepth 10000

/- ===================== String helpers (JS semantics) ===================== -/

/-- Model of checking that a character list starts with a given pattern. -/
def startsWithChars : List Char → List Char → Bool
  | _, [] => true
  | [], _ :: _ => false
  | c :: cs, p :: ps => c == p && startsWithChars cs ps

/-- Model of JS String.prototype.includes: does pat occur as a contiguous
substring of the character list. -/
def hasSubChars (pat : List Char) : List Char → Bool
  | [] => pat.isEmpty
  | c :: cs => startsWithChars (c :: cs) pat || hasSubChars pat cs

/-- Model of JS s.includes(pat) on strings. -/
def jsIncludes (s pat : String) : Bool :=
  hasSubChars pat.data s.data

/-- Model of JS s.toLowerCase() for the ASCII strings used by the code. -/
def lowerStr (s : String) : String :=
  String.mk (s.data.map Char.toLower)

/-- Model of JS whitespace trimming on character lists. -/
def trimChars (cs : List Char) : List Char :=
  ((cs.dropWhile Char.isWhitespace).reverse.dropWhile Char.isWhitespace).reverse

/-- Model of JS s.trim(). -/
def jsTrim (s : String) : String :=
  String.mk (trimChars s.data)

/-- Model of JS s.split(sep) for a single separator character. -/
def splitOnChar (sep : Char) : List Char → List (List Char)
  | [] => [[]]
  | c :: rest =>
    let r := splitOnChar sep rest
    if c == sep then
      [] :: r
    else
      match r with
      | x :: xs => (c :: x) :: xs
      | [] => [[c]]

/- ===================== YouTubeRequestQueue (RequestSerializer) ===================== -/

/-- Model of the retryableErrors array in YouTubeRequestQueue.shouldRetry
(backend/src/utils/youtube.ts). -/
def retryableErrors : List String :=
  ["YouTube rate limit exceeded", "Access forbidden", "Network error",
   "Connection timeout", "Proxy error"]

/-- Model of YouTubeRequestQueue.shouldRetry: the error message is retryable
exactly when its lowercase form contains one of the lowercase retryable
substrings. -/
def shouldRetry (msg : String) : Bool :=
  retryableErrors.any (fun e => jsIncludes (lowerStr msg) (lowerStr e))

/-- Model of the fixed inter-item and backoff base delay of the queue (ms). -/
def queueDelay : Nat := 2000

/-- Model of the error message produced by executeYtDlpWithProxy when the
subprocess exceeds its wall-clock budget and is force-killed. -/
def timeoutErrorMessage : String := "yt-dlp timeout"

/-- Model of a queued request of YouTubeRequestQueue. The behavior field maps
the execution count to the outcome the wrapped action produces on that
execution; settled records the resolution of the promise returned by add
(a promise settles only once). -/
structure QueueItem (α : Type) where
  behavior : Nat → Except String α
  execCount : Nat
  settled : Option (Except String α)
  retries : Nat
  maxRetries : Nat

/-- Model of running the closure that add pushes onto the queue: it executes
the action, resolves or rejects the caller promise with the outcome, and
returns normally in both cases (the try/catch inside the queued closure
swallows the action error). The second component is the error, if any, that
the closure itself throws to the processing loop. -/
def runQueuedRequest {α : Type} (it : QueueItem α) : QueueItem α × Option String :=
  let outcome := it.behavior it.execCount
  let settled :=
    match it.settled with
    | some s => some s
    | none => some outcome
  ({ it with execCount := it.execCount + 1, settled := settled }, none)

/-- Model of YouTubeRequestQueue.process: dequeues items one at a time; if
awaiting an item throws, and the item still has retries left and the error is
retryable, the item re-enters at the front after a linear backoff delay of
queueDelay * retries; an inter-item delay of queueDelay separates dequeues
while the queue is nonempty. Returns the finished items in completion order
together with the list of delays that were awaited. Fuel bounds recursion. -/
def processQueue {α : Type} : Nat → List (QueueItem α) → List (QueueItem α) × List Nat
  | 0, _ => ([], [])
  | _ + 1, [] => ([], [])
  | fuel + 1, it :: rest =>
    let step := runQueuedRequest it
    match step.2 with
    | some errMsg =>
      if step.1.retries < step.1.maxRetries && shouldRetry errMsg then
        let retried := { step.1 with retries := step.1.retries + 1 }
        let next := processQueue fuel (retried :: rest)
        (next.1, (queueDelay * retried.retries) :: queueDelay :: next.2)
      else
        let next := processQueue fuel rest
        (step.1 :: next.1, if rest.isEmpty then next.2 else queueDelay :: next.2)
    | none =>
      let next := processQueue fuel rest
      (step.1 :: next.1, if rest.isEmpty then next.2 else queueDelay :: next.2)

/-- Model of an action that fails with a retryable error on its first two
executions and succeeds on the third, as in the C1 scenario. -/
def flakyBehavior : Nat → Except String Nat
  | 0 => Except.error "Network error"
  | 1 => Except.error "Network error"
  | _ => Except.ok 1

/- ===================== getVideoInfoWithYtDlp (ExtractionInvoker) ===================== -/

/-- Model of the names of the four impersonation strategies tried in order by
getVideoInfoWithYtDlp. -/
def strategyNames : List String :=
  ["iOS + Web (with geo-bypass)", "Android + Web (with geo-bypass)",
   "Web (latest Chrome with geo-bypass)", "Mobile Web (fallback)"]

/-- Model of the error.message test in the strategy loop catch block of
getVideoInfoWithYtDlp: only messages containing a rate-limit or
access-forbidden marker abort the remaining strategies. -/
def isTerminalStrategyError (msg : String) : Bool :=
  jsIncludes msg "rate limit" || jsIncludes msg "Access forbidden"

/-- Model of the stderr classification performed when executeYtDlpWithProxy
resolves with empty stdout: the stderr content is mapped to one of the typed
error messages in a fixed priority order. -/
def classifyStderr (errorData : String) : String :=
  if jsIncludes errorData "429" || jsIncludes errorData "Too Many Requests" then
    "YouTube rate limit exceeded"
  else if jsIncludes errorData "403" || jsIncludes errorData "Forbidden" then
    "Access forbidden - video may be restricted"
  else if jsIncludes errorData "Video unavailable" then
    "Video unavailable"
  else if jsIncludes errorData "Private video" then
    "Video is private"
  else
    "yt-dlp failed: " ++ (if errorData = "" then "Unknown error" else errorData)

/-- Model of a single strategy attempt of getVideoInfoWithYtDlp: the
subprocess either rejects with an error message or resolves with a
(stdout, stderr) pair; nonempty stdout is split into nonblank lines whose
last line is parsed (parse models JSON.parse composed with the result
shape); empty stdout is classified from stderr. -/
def classifyAttempt {α : Type} (parse : String → Option α)
    (r : Except String (String × String)) : Except String α :=
  match r with
  | Except.error e => Except.error e
  | Except.ok (stdoutData, errorData) =>
    if stdoutData = "" then
      Except.error (classifyStderr errorData)
    else
      let lines := (splitOnChar '\n' (trimChars stdoutData.data)).filter
        (fun l => ¬ (trimChars l).isEmpty)
      match lines.getLast? with
      | some lastLine =>
        match parse (String.mk lastLine) with
        | some v => Except.ok v
        | none => Except.error "Failed to parse video info"
      | none => Except.error "Failed to parse video info"

/-- Model of the for-loop of getVideoInfoWithYtDlp over the classified
outcomes of the strategies, with lastError threading: a success returns
immediately; a terminal error is rethrown immediately; any other error is
recorded and the next strategy is tried; when all strategies are exhausted
the most recent error (or a generic failure) is thrown. The second component
counts how many strategies were attempted. -/
def tryStrategies {α : Type} : List (Except String α) → Option String → Except String α × Nat
  | [], lastError => (Except.error (lastError.getD "All extraction strategies failed"), 0)
  | o :: rest, _lastError =>
    match o with
    | Except.ok v => (Except.ok v, 1)
    | Except.error e =>
      if isTerminalStrategyError e then
        (Except.error e, 1)
      else
        let next := tryStrategies rest (some e)
        (next.1, next.2 + 1)

/-- Model of getVideoInfoWithYtDlp: one subprocess execution per strategy,
classified and folded through the strategy loop. The environment exec gives
the subprocess outcome for each strategy index. -/
def getVideoInfoRun {α : Type} (parse : String → Option α)
    (exec : Nat → Except String (String × String)) : Except String α × Nat :=
  tryStrategies ((List.range strategyNames.length).map
    (fun i => classifyAttempt parse (exec i))) none

/-- Model of an execution environment in which the first strategy resolves
with empty stdout and an unavailable-video stderr, and every later strategy
resolves with empty stdout and a private-video stderr. -/
def execUnavailEnv : Nat → Except String (String × String)
  | 0 => Except.ok ("", "ERROR: Video unavailable")
  | _ => Except.ok ("", "ERROR: Private video")

/- ===================== URL validation and normalization ===================== -/

/-- Model of the character class of a YouTube video ID. -/
def idChar (c : Char) : Bool :=
  c.isAlphanum || c == '_' || c == '-'

/-- Model of matching exactly 11 video-id characters at the head of the
input, as the regex fragment of 11 id characters does. -/
def takeVideoId (cs : List Char) : Option (List Char) :=
  let pre := cs.take 11
  if pre.length = 11 && pre.all idChar then some pre else none

/-- Model of consuming a literal pattern at the head of the input, returning
the remainder on success. -/
def stripLit : List Char → List Char → Option (List Char)
  | [], cs => some cs
  | _ :: _, [] => none
  | p :: ps, c :: cs => if p == c then stripLit ps cs else none

/-- Model of trying each regex alternative at the current position: the
alternative must match literally and be followed by 11 id characters. -/
def tryAltsHere (alts : List (List Char)) (cs : List Char) : Option (List Char) :=
  match alts with
  | [] => none
  | a :: rest =>
    match stripLit a cs with
    | some after =>
      match takeVideoId after with
      | some vid => some vid
      | none => tryAltsHere rest cs
    | none => tryAltsHere rest cs

/-- Model of an unanchored leftmost regex scan: at each position the
alternatives are tried in order; on failure the scan advances one character. -/
def scanForId (alts : List (List Char)) : List Char → Option (List Char)
  | [] => tryAltsHere alts []
  | c :: rest =>
    match tryAltsHere alts (c :: rest) with
    | some vid => some vid
    | none => scanForId alts rest

/-- Model of extractVideoId: three regex patterns are tried in order over the
whole URL; each captures the 11-character id following one of the recognized
URL shapes. -/
def extractVideoId (url : String) : Option String :=
  let p1 := ["youtube.com/watch?v=".data, "youtu.be/".data, "youtube.com/embed/".data]
  let p2 := ["youtube.com/v/".data]
  let p3 := ["youtube.com/shorts/".data]
  match scanForId p1 url.data with
  | some vid => some (String.mk vid)
  | none =>
    match scanForId p2 url.data with
    | some vid => some (String.mk vid)
    | none =>
      match scanForId p3 url.data with
      | some vid => some (String.mk vid)
      | none => none

/-- Model of the tail of the anchored YouTube-URL regex after the optional
scheme and optional www. have been consumed: either youtube.com/ followed by
one of the recognized path shapes, or youtu.be/, followed by 11 id
characters. -/
def matchesYouTubeTail (cs : List Char) : Bool :=
  (match stripLit "youtube.com/".data cs with
   | some after =>
     ["watch?v=".data, "embed/".data, "v/".data, "shorts/".data].any
       (fun alt =>
         match stripLit alt after with
         | some after2 => (takeVideoId after2).isSome
         | none => false)
   | none => false)
  ||
  (match stripLit "youtu.be/".data cs with
   | some after => (takeVideoId after).isSome
   | none => false)

/-- Model of isValidYouTubeUrl: the trimmed URL must match the anchored
regex with optional http or https scheme and optional www. before the
YouTube host part. -/
def isValidYouTubeUrl (url : String) : Bool :=
  let cs0 := trimChars url.data
  let cs1 :=
    match stripLit "https://".data cs0 with
    | some r => r
    | none =>
      match stripLit "http://".data cs0 with
      | some r => r
      | none => cs0
  let cs2 :=
    match stripLit "www.".data cs1 with
    | some r => r
    | none => cs1
  matchesYouTubeTail cs2

/-- Model of the normalizedUrl computation in the backend /info, /formats and
/download route handlers: after validity checks, a URL containing /shorts/ is
rewritten to the canonical watch form while every other URL is passed through
unchanged; none is returned when validation rejects the URL. -/
def infoNormalizedUrl (url : String) : Option String :=
  if isValidYouTubeUrl url then
    match extractVideoId url with
    | some vid =>
      some (if jsIncludes url "/shorts/" then
              "https://www.youtube.com/watch?v=" ++ vid
            else url)
    | none => none
  else none

/-- Model of the youtu.be short-link form of the C3 scenario. -/
def urlShortLink : String := "https://youtu.be/AbCdEfGhIjK"

/-- Model of the shorts form of the C3 scenario. -/
def urlShortsForm : String := "https://www.youtube.com/shorts/AbCdEfGhIjK"

/-- Model of the canonical watch form of the C3 scenario. -/
def urlWatchForm : String := "https://www.youtube.com/watch?v=AbCdEfGhIjK"

/- ===================== ProxyManager (ProxyPool) ===================== -/

/-- Model of a ProxyConfig entry of the proxy pool. -/
structure Endpoint where
  host : String
  port : Nat
  protocol : String
  username : Option String
  password : Option String
  isActive : Bool
  lastUsed : Nat
  failureCount : Nat
  maxFailures : Nat
deriving Repr, DecidableEq

instance : Inhabited Endpoint :=
  ⟨⟨"", 0, "http", none, none, false, 0, 0, 0⟩⟩

/-- Model of the failureCooldown of the global ProxyManager instance (ms). -/
def failureCooldown : Nat := 300000

/-- Model of ProxyManager.reportFailure restricted to one endpoint: the
failure count is incremented; on reaching maxFailures the endpoint is
deactivated and a reactivation timer is scheduled for failureCooldown ms
(returned as the second component). -/
def reportFailureE (p : Endpoint) : Endpoint × Option Nat :=
  if p.maxFailures ≤ p.failureCount + 1 then
    ({ p with failureCount := p.failureCount + 1, isActive := false }, some failureCooldown)
  else
    ({ p with failureCount := p.failureCount + 1 }, none)

/-- Model of ProxyManager.reportSuccess restricted to one endpoint: the
failure count is decremented, floored at zero. -/
def reportSuccessE (p : Endpoint) : Endpoint :=
  { p with failureCount := p.failureCount - 1 }

/-- Model of the cooldown-timer callback scheduled by reportFailure: the
endpoint is reactivated and its failure count reset to zero. -/
def timerFireE (p : Endpoint) : Endpoint :=
  { p with isActive := true, failureCount := 0 }

/-- Model of iterating reportFailure on one endpoint, ignoring the scheduled
timers. -/
def repFailIter : Nat → Endpoint → Endpoint
  | 0, p => p
  | n + 1, p => (reportFailureE (repFailIter n p)).1

/-- Model of a fresh endpoint as created by ProxyManager.addProxy: active,
never used, zero failures, the configured maxFailures. -/
def freshEndpoint (host : String) (port : Nat) (protocol : String) (mf : Nat) : Endpoint :=
  { host := host, port := port, protocol := protocol, username := none,
    password := none, isActive := true, lastUsed := 0, failureCount := 0,
    maxFailures := mf }

/-- Model of the rotation strategies of ProxyManagerConfig. -/
inductive RotationStrategy where
  | roundRobin
  | random
  | leastUsed
deriving Repr, DecidableEq

/-- Model of the mutable state of a ProxyManager: the endpoint list, the
round-robin cursor, and the multiset of pool indices with a pending
reactivation timer. -/
structure PoolState where
  proxies : List Endpoint
  currentIndex : Nat
  timers : List Nat
deriving Repr, DecidableEq

/-- Model of reading a pool entry by index with an out-of-range default. -/
def proxyAt (ps : List Endpoint) (i : Nat) : Endpoint :=
  (ps.get? i).getD default

/-- Model of availableIndices in getNextProxy: the pool positions of the
active endpoints, in pool order (object identity in the source makes
indexOf return each filtered endpoint's own position). -/
def availableIdx (ps : List Endpoint) : List Nat :=
  (List.range ps.length).filter (fun i => (proxyAt ps i).isActive)

/-- Model of ProxyManager.getNextProxy: returns none when no endpoint is
active; otherwise selects an index per rotation strategy (round-robin with
wrapping cursor, uniform random, or least recently used), stamps lastUsed
with the current time, and returns the selected pool index together with
the selected endpoint. -/
def getNextProxy (strat : RotationStrategy) (s : PoolState) (now rand : Nat) :
    Option (Nat × Endpoint) × PoolState :=
  match availableIdx s.proxies with
  | [] => (none, s)
  | a :: rest =>
    let nextIdx :=
      match strat with
      | RotationStrategy.roundRobin =>
        ((a :: rest).find? (fun i => decide (s.currentIndex ≤ i))).getD a
      | RotationStrategy.random =>
        (a :: rest).get ⟨rand % (rest.length + 1), Nat.mod_lt _ (Nat.succ_pos rest.length)⟩
      | RotationStrategy.leastUsed =>
        rest.foldl (fun prev cur =>
          if (proxyAt s.proxies prev).lastUsed < (proxyAt s.proxies cur).lastUsed
          then prev else cur) a
    let selected := { proxyAt s.proxies nextIdx with lastUsed := now }
    let cursor :=
      match strat with
      | RotationStrategy.roundRobin => (nextIdx + 1) % s.proxies.length
      | _ => s.currentIndex
    (some (nextIdx, selected),
     { s with proxies := s.proxies.set nextIdx selected, currentIndex := cursor })

/-- Model of the pool operations of claim C4: administrative adds, selection,
success and failure reports, the force reset, and cooldown-timer firings. -/
inductive PoolOp where
  | addProxy (host : String) (port : Nat) (protocol : String)
  | getNext (now rand : Nat)
  | reportSuccess (i : Nat)
  | reportFailure (i : Nat)
  | resetFailureCounts
  | timerFire (i : Nat)
deriving Repr, DecidableEq

/-- Model of one pool operation acting on the pool state; mf is the
configured maxFailures stamped onto added endpoints; out-of-range indices
leave the state unchanged, and a timer may fire only while it is pending. -/
def stepPool (mf : Nat) (strat : RotationStrategy) (s : PoolState) : PoolOp → PoolState
  | PoolOp.addProxy h p pr =>
    { s with proxies := s.proxies ++ [freshEndpoint h p pr mf] }
  | PoolOp.getNext now rand => (getNextProxy strat s now rand).2
  | PoolOp.reportSuccess i =>
    match s.proxies.get? i with
    | some p => { s with proxies := s.proxies.set i (reportSuccessE p) }
    | none => s
  | PoolOp.reportFailure i =>
    match s.proxies.get? i with
    | some p =>
      let r := reportFailureE p
      { s with proxies := s.proxies.set i r.1,
               timers := if r.2.isSome then i :: s.timers else s.timers }
    | none => s
  | PoolOp.resetFailureCounts =>
    { s with
      proxies := s.proxies.map (fun p => { p with failureCount := 0, isActive := true }) }
  | PoolOp.timerFire i =>
    if i ∈ s.timers then
      match s.proxies.get? i with
      | some p =>
        { s with proxies := s.proxies.set i (timerFireE p), timers := s.timers.erase i }
      | none => { s with timers := s.timers.erase i }
    else s

/-- Model of the empty initial pool. -/
def initPool : PoolState := ⟨[], 0, []⟩

/-- Model of running a sequence of pool operations from the empty pool. -/
def runPool (mf : Nat) (strat : RotationStrategy) (ops : List PoolOp) : PoolState :=
  ops.foldl (stepPool mf strat) initPool

/-- Invariant of claim C4 as amended: any pool endpoint whose failure count
has reached its maxFailures is inactive and has a pending reactivation
timer. -/
def InvPool (s : PoolState) : Prop :=
  ∀ i, (h : i < s.proxies.length) →
    (s.proxies[i].maxFailures ≤ s.proxies[i].failureCount →
      s.proxies[i].isActive = false ∧ i ∈ s.timers)

/-- Model of k consecutive getNextProxy calls under the round-robin strategy
with no intervening pool mutations, collecting the selected pool indices. -/
def runNexts : Nat → PoolState → List Nat × PoolState
  | 0, s => ([], s)
  | k + 1, s =>
    let step := getNextProxy RotationStrategy.roundRobin s 0 0
    match step.1 with
    | some sel =>
      let next := runNexts k step.2
      (sel.1 :: next.1, next.2)
    | none => runNexts k step.2

/- ===================== ProxyRefreshService (ProxySupplier) ===================== -/

/-- Model of a fetched proxy candidate parsed from a free proxy source. -/
structure Cand where
  host : String
  port : Nat
  protocol : String
deriving Repr, DecidableEq

/-- Model of the maxProxies option of the global ProxyRefreshService. -/
def maxProxies : Nat := 15

/-- Model of the minProxies option of the global ProxyRefreshService. -/
def minProxies : Nat := 5

/-- Model of the host:port key used for deduplication. -/
def hostPortKey (host : String) (port : Nat) : String :=
  host ++ ":" ++ toString port

/-- Model of ProxyRefreshService.removeFailedProxies: when failed entries
exist, the pool is cleared and rebuilt from fresh endpoints carrying only
the host, port and protocol of the currently-active entries. -/
def removeFailedProxies (mf : Nat) (pool : List Endpoint) : List Endpoint :=
  let failed := pool.length - (pool.filter (fun p => p.isActive)).length
  if 0 < failed then
    (pool.filter (fun p => p.isActive)).map
      (fun p => freshEndpoint p.host p.port p.protocol mf)
  else pool

/-- Model of ProxyRefreshService.refreshProxies: a no-op while a refresh is
in progress; otherwise reads the pool stats at entry, purges via
removeFailedProxies when the total exceeds maxProxies, and when the active
count is below minProxies or failed entries exist, requests
max(minProxies - active, failed) fresh candidates, deduplicates them against
the (possibly purged) pool by host:port, and appends that many of them. The
second component is the number of candidates requested, none when no fetch
happens. -/
def refreshProxies (mf : Nat) (refreshing : Bool) (pool : List Endpoint)
    (fetched : List Cand) : List Endpoint × Option Nat :=
  if refreshing then (pool, none)
  else
    let total := pool.length
    let active := (pool.filter (fun p => p.isActive)).length
    let failed := total - active
    let pool1 := if maxProxies < total then removeFailedProxies mf pool else pool
    if active < minProxies || 0 < failed then
      let needed := max (minProxies - active) failed
      let existing := pool1.map (fun p => hostPortKey p.host p.port)
      let uniqueNew := fetched.filter
        (fun c => ¬ existing.contains (hostPortKey c.host c.port))
      let toAdd := (uniqueNew.take needed).map
        (fun c => freshEndpoint c.host c.port c.protocol mf)
      (pool1 ++ toAdd, some needed)
    else
      (pool1, none)

/-- Model of an over-limit pool used to exercise the purge case: fifteen
active endpoints plus one deactivated endpoint, sixteen in total. -/
def bigPoolExample : List Endpoint :=
  (List.range 15).map (fun i => freshEndpoint "h" (100 + i) "http" 3) ++
    [⟨"bad", 9, "http", none, none, false, 0, 3, 3⟩]

/- ===================== videoInfoCache (ResultCache) ===================== -/

/-- Model of the CACHE_TTL constant (one hour in ms). -/
def CACHE_TTL : Nat := 3600000

/-- Model of one entry of the videoInfoCache map. -/
structure CacheEntry (α : Type) where
  data : α
  timestamp : Nat
deriving Repr, DecidableEq

/-- Model of Map.prototype.get on the insertion-ordered cache map. -/
def cacheGet {α : Type} (cache : List (String × CacheEntry α)) (url : String) :
    Option (CacheEntry α) :=
  (cache.find? (fun kv => kv.1 == url)).map (fun kv => kv.2)

/-- Model of Map.prototype.set on the insertion-ordered cache map: an
existing key is overwritten in place, a new key is appended. -/
def cacheSet {α : Type} (cache : List (String × CacheEntry α)) (url : String)
    (e : CacheEntry α) : List (String × CacheEntry α) :=
  if cache.any (fun kv => kv.1 == url) then
    cache.map (fun kv => if kv.1 == url then (url, e) else kv)
  else
    cache ++ [(url, e)]

/-- Model of the freshness test of getCachedVideoInfo: true when the lookup
misses or the entry is stale. -/
def cacheMiss {α : Type} (cache : List (String × CacheEntry α)) (now : Nat)
    (url : String) : Bool :=
  match cacheGet cache url with
  | some c => decide (CACHE_TTL ≤ now - c.timestamp)
  | none => true

/-- Model of getCachedVideoInfo: a fresh cache hit returns the cached data
without running the extraction; otherwise the queued extraction outcome is
awaited, a failure rejects without touching the cache, and a success is
stored under the URL before being returned. -/
def getCachedVideoInfo {α : Type} (cache : List (String × CacheEntry α))
    (now : Nat) (url : String) (extraction : Except String α) :
    Except String α × List (String × CacheEntry α) :=
  match cacheGet cache url with
  | some c =>
    if now - c.timestamp < CACHE_TTL then
      (Except.ok c.data, cache)
    else
      match extraction with
      | Except.error e => (Except.error e, cache)
      | Except.ok info => (Except.ok info, cacheSet cache url ⟨info, now⟩)
  | none =>
    match extraction with
    | Except.error e => (Except.error e, cache)
    | Except.ok info => (Except.ok info, cacheSet cache url ⟨info, now⟩)

/- ===================== Helper lemmas ===================== -/

/-- Helper: reportFailureE always increments the failure count by one. -/
theorem reportFailureE_count (p : Endpoint) :
    (reportFailureE p).1.failureCount = p.failureCount + 1 := by
  unfold reportFailureE
  split <;> rfl

/-- Helper: reportFailureE never changes maxFailures. -/
theorem reportFailureE_max (p : Endpoint) :
    (reportFailureE p).1.maxFailures = p.maxFailures := by
  unfold reportFailureE
  split <;> rfl

/-- Helper: an endpoint active after reportFailureE was active before. -/
theorem reportFailureE_active_mono (p : Endpoint)
    (h : (reportFailureE p).1.isActive = true) : p.isActive = true := by
  unfold reportFailureE at h
  split at h
  · exact absurd h (by simp)
  · exact h

/-- Helper: when the incremented count reaches maxFailures, reportFailureE
deactivates the endpoint and schedules a cooldown timer. -/
theorem reportFailureE_deactivates (p : Endpoint)
    (h : p.maxFailures ≤ p.failureCount + 1) :
    (reportFailureE p).1.isActive = false ∧ (reportFailureE p).2 = some failureCooldown := by
  unfold reportFailureE
  rw [if_pos h]
  exact ⟨rfl, rfl⟩

/-- Helper: iterated reportFailure adds the iteration count to the failure
count. -/
theorem repFailIter_count (n : Nat) (p : Endpoint) :
    (repFailIter n p).failureCount = p.failureCount + n := by
  induction n with
  | zero => rfl
  | succ m ih => rw [repFailIter, reportFailureE_count, ih]; omega

/-- Helper: iterated reportFailure preserves maxFailures. -/
theorem repFailIter_max (n : Nat) (p : Endpoint) :
    (repFailIter n p).maxFailures = p.maxFailures := by
  induction n with
  | zero => rfl
  | succ m ih => rw [repFailIter, reportFailureE_max, ih]

/-- Helper: iterated reportFailure never reactivates an endpoint. -/
theorem repFailIter_inactive (n : Nat) (p : Endpoint)
    (h : p.isActive = false) : (repFailIter n p).isActive = false := by
  induction n with
  | zero => exact h
  | succ m ih =>
    rw [repFailIter]
    cases hb : (reportFailureE (repFailIter m p)).1.isActive with
    | false => rfl
    | true => exact absurd (reportFailureE_active_mono _ hb) (by rw [ih]; simp)

/- ===================== Claim C1 ===================== -/

/-- C1: the closure that YouTubeRequestQueue.add pushes onto the queue
settles the caller promise in its own try/catch and never rethrows, so the
retry branch of process is unreachable. An action that fails twice with the
retryable message "Network error" and then succeeds is executed exactly
once, with zero retries performed, and its promise is rejected with the
first error instead of resolving after three attempts. -/
theorem c1_retry_unreachable :
    shouldRetry "Network error" = true ∧
    flakyBehavior 0 = Except.error "Network error" ∧
    flakyBehavior 1 = Except.error "Network error" ∧
    flakyBehavior 2 = Except.ok 1 ∧
    (runQueuedRequest (⟨flakyBehavior, 0, none, 0, 3⟩ : QueueItem Nat)).2 = none ∧
    (processQueue 8 [⟨flakyBehavior, 0, none, 0, 3⟩]).1.map
        (fun it => (it.execCount, it.settled, it.retries))
      = [(1, some (Except.error "Network error"), 0)] :=
  ⟨by decide, rfl, rfl, rfl, rfl, rfl⟩

/- ===================== Claim C2 ===================== -/

/-- C2 counterexample: in a run where the first strategy is classified as
NotAvailable (stderr containing the unavailable marker) and the remaining
strategies as PrivateVideo, the invoker attempts all four strategies and
propagates the last error, not the first; the NotAvailable classification is
therefore not terminal. -/
theorem c2_counterexample :
    classifyAttempt (fun _ => (none : Option Nat)) (execUnavailEnv 0)
      = Except.error "Video unavailable" ∧
    getVideoInfoRun (fun _ => (none : Option Nat)) execUnavailEnv
      = (Except.error "Video is private", 4) ∧
    (4 : Nat) ≠ 1 :=
  ⟨rfl, rfl, by decide⟩

/-- C2 amended: within a single invocation only the RateLimited and
Forbidden classifications are terminal; a NotAvailable or PrivateVideo
classification makes the invoker continue with the next strategy (recorded
as lastError), so such errors surface only after all strategies are
exhausted. -/
theorem c2_terminal_classification {α : Type} (rest : List (Except String α))
    (lastError : Option String) (e : String)
    (he : e = "Video unavailable" ∨ e = "Video is private") :
    isTerminalStrategyError e = false ∧
    (tryStrategies (Except.error e :: rest) lastError).1
      = (tryStrategies rest (some e)).1 ∧
    (tryStrategies (Except.error e :: rest) lastError).2
      = (tryStrategies rest (some e)).2 + 1 ∧
    (∀ e2, isTerminalStrategyError e2 = true →
      tryStrategies (Except.error e2 :: rest) lastError = (Except.error e2, 1)) := by
  have hterm : isTerminalStrategyError e = false := by
    rcases he with h | h <;> rw [h] <;> decide
  refine ⟨hterm, ?_, ?_, ?_⟩
  · simp [tryStrategies, hterm]
  · simp [tryStrategies, hterm]
  · intro e2 h2
    simp [tryStrategies, h2]

/-- C2 witness: instantiation of the amended terminality theorem at the
NotAvailable message with one remaining successful strategy. -/
theorem c2_witness :
    isTerminalStrategyError "Video unavailable" = false ∧
    (tryStrategies (Except.error "Video unavailable" :: [Except.ok 7]) none).1
      = (tryStrategies [Except.ok (7 : Nat)] (some "Video unavailable")).1 ∧
    (tryStrategies (Except.error "Video unavailable" :: [Except.ok 7]) none).2
      = (tryStrategies [Except.ok (7 : Nat)] (some "Video unavailable")).2 + 1 ∧
    (∀ e2, isTerminalStrategyError e2 = true →
      tryStrategies (Except.error e2 :: [Except.ok (7 : Nat)]) none = (Except.error e2, 1)) :=
  c2_terminal_classification [Except.ok 7] none "Video unavailable" (Or.inl rfl)

/- ===================== Claim C3 ===================== -/

/-- C3 counterexample: the normalized URL the backend routes pass to the
cache differs between the youtu.be form and the other two forms of the same
video, so the three forms do not share a single cache entry. -/
theorem c3_counterexample :
    infoNormalizedUrl urlShortLink ≠ infoNormalizedUrl urlShortsForm ∧
    infoNormalizedUrl urlShortLink ≠ infoNormalizedUrl urlWatchForm :=
  ⟨by decide, by decide⟩

/-- C3 amended: all three URL forms are accepted; the shorts form and the
watch form normalize to the identical canonical string and therefore share
one cache entry, but the youtu.be form is passed through unchanged and uses
its own distinct cache key. -/
theorem c3_normalization :
    infoNormalizedUrl urlShortsForm = some urlWatchForm ∧
    infoNormalizedUrl urlWatchForm = some urlWatchForm ∧
    infoNormalizedUrl urlShortLink = some urlShortLink ∧
    urlShortLink ≠ urlWatchForm :=
  ⟨by decide, by decide, by decide, by decide⟩

/- ===================== Claim C5 ===================== -/

/-- C5: under any sequence of reportFailure calls on one endpoint, as soon as
the failure count reaches maxFailures the endpoint is deactivated and a
cooldown timer for failureCooldown ms is scheduled by the crossing call; the
endpoint remains inactive under arbitrarily many further reportFailure
calls; and the timer firing resets it to active with a zero failure
count. -/
theorem c5_failure_cooldown (p : Endpoint) (n : Nat) (h1 : 1 ≤ n)
    (h2 : p.maxFailures ≤ p.failureCount + n) :
    (repFailIter n p).isActive = false ∧
    (reportFailureE (repFailIter (n - 1) p)).2 = some failureCooldown ∧
    (∀ m, (repFailIter m (repFailIter n p)).isActive = false) ∧
    (timerFireE (repFailIter n p)).isActive = true ∧
    (timerFireE (repFailIter n p)).failureCount = 0 := by
  obtain ⟨k, rfl⟩ : ∃ k, n = k + 1 := ⟨n - 1, by omega⟩
  have hcross : (repFailIter k p).maxFailures ≤ (repFailIter k p).failureCount + 1 := by
    rw [repFailIter_max, repFailIter_count]
    omega
  have hstep := reportFailureE_deactivates (repFailIter k p) hcross
  have hfirst : (repFailIter (k + 1) p).isActive = false := by
    rw [repFailIter]
    exact hstep.1
  refine ⟨hfirst, ?_, ?_, rfl, rfl⟩
  · simpa using hstep.2
  · intro m
    exact repFailIter_inactive m _ hfirst

/-- C5 witness: a fresh endpoint with the default maxFailures of 3 is
deactivated by its third failure report, stays inactive, and is reset by the
cooldown timer. -/
theorem c5_witness :
    (repFailIter 3 (freshEndpoint "p1" 8080 "http" 3)).isActive = false ∧
    (reportFailureE (repFailIter (3 - 1) (freshEndpoint "p1" 8080 "http" 3))).2
      = some failureCooldown ∧
    (∀ m, (repFailIter m (repFailIter 3 (freshEndpoint "p1" 8080 "http" 3))).isActive
      = false) ∧
    (timerFireE (repFailIter 3 (freshEndpoint "p1" 8080 "http" 3))).isActive = true ∧
    (timerFireE (repFailIter 3 (freshEndpoint "p1" 8080 "http" 3))).failureCount = 0 :=
  c5_failure_cooldown (freshEndpoint "p1" 8080 "http" 3) 3 (by decide) (by decide)

/- ===================== Claim C9 ===================== -/

/-- C9: the error raised when the yt-dlp subprocess exceeds its wall-clock
budget carries the message "yt-dlp timeout", which matches none of the
retryable substrings of the queue's retry predicate, so the timeout failure
is not retried; the predicate's own "Connection timeout" entry (which would
match) is never produced by the timeout handler. -/
theorem c9_timeout_not_retryable :
    shouldRetry timeoutErrorMessage = false ∧
    shouldRetry "Connection timeout" = true :=
  ⟨by decide, by decide⟩

/- ===================== Claim C10 ===================== -/

/-- C10: when the lookup misses (no fresh entry) and the queued extraction
fails, getCachedVideoInfo rejects with that error and leaves the cache map
completely unchanged; the cache mapping changes only when the extraction
succeeds, and then exactly by storing the fresh result under the URL. -/
theorem c10_cache_write_only_on_success {α : Type}
    (cache : List (String × CacheEntry α)) (now : Nat) (url : String)
    (extraction : Except String α) :
    (∀ e, cacheMiss cache now url = true → extraction = Except.error e →
      getCachedVideoInfo cache now url extraction = (Except.error e, cache)) ∧
    ((getCachedVideoInfo cache now url extraction).2 ≠ cache →
      ∃ info, extraction = Except.ok info ∧
        (getCachedVideoInfo cache now url extraction).2 = cacheSet cache url ⟨info, now⟩) := by
  constructor
  · intro e hmiss hext
    subst hext
    unfold cacheMiss at hmiss
    cases hg : cacheGet cache url with
    | none => simp [getCachedVideoInfo, hg]
    | some c =>
      rw [hg] at hmiss
      simp only [decide_eq_true_eq] at hmiss
      simp only [getCachedVideoInfo, hg]
      rw [if_neg (by omega)]
  · intro hne
    cases hg : cacheGet cache url with
    | none =>
      simp only [getCachedVideoInfo, hg] at hne ⊢
      cases extraction with
      | error e => exact absurd rfl hne
      | ok info => exact ⟨info, rfl, rfl⟩
    | some c =>
      simp only [getCachedVideoInfo, hg] at hne ⊢
      by_cases hf : now - c.timestamp < CACHE_TTL
      · rw [if_pos hf] at hne
        exact absurd rfl hne
      · rw [if_neg hf] at hne ⊢
        cases extraction with
        | error e => exact absurd rfl hne
        | ok info => exact ⟨info, rfl, rfl⟩

/-- C10 witness: on an empty cache a failing extraction rejects with its
error and writes nothing. -/
theorem c10_witness :
    getCachedVideoInfo ([] : List (String × CacheEntry Nat)) 0 "u" (Except.error "boom")
      = (Except.error "boom", []) :=
  (c10_cache_write_only_on_success [] 0 "u" (Except.error "boom")).1 "boom" rfl rfl

/- ===================== Claim C8 ===================== -/

/-- C8: refreshProxies is a no-op while a refresh is in progress; otherwise,
with the stats read at entry: in the purge case (total above maxProxies and
failed entries present) the result is exactly the pool rebuilt from only the
currently-active endpoints, followed by the appended fresh candidates, so
every inactive entry is dropped; in the purge case with no failed entries,
and whenever the total is within maxProxies, the pool is preserved as-is
with only active fresh candidates appended; and a fetch of
max(minProxies - active, failed) candidates is requested exactly when the
active count is below minProxies or failed entries exist. -/
theorem c8_refresh_behavior (mf : Nat) (refreshing : Bool) (pool : List Endpoint)
    (fetched : List Cand) :
    (refreshing = true → refreshProxies mf refreshing pool fetched = (pool, none)) ∧
    (refreshing = false → maxProxies < pool.length →
      0 < pool.length - (pool.filter (fun p => p.isActive)).length →
      ∃ added, (refreshProxies mf refreshing pool fetched).1
          = (pool.filter (fun p => p.isActive)).map
              (fun p => freshEndpoint p.host p.port p.protocol mf) ++ added ∧
        ∀ q ∈ added, q.isActive = true) ∧
    (refreshing = false → maxProxies < pool.length →
      pool.length - (pool.filter (fun p => p.isActive)).length = 0 →
      ∃ added, (refreshProxies mf refreshing pool fetched).1 = pool ++ added ∧
        ∀ q ∈ added, q.isActive = true) ∧
    (refreshing = false → pool.length ≤ maxProxies →
      ∃ added, (refreshProxies mf refreshing pool fetched).1 = pool ++ added ∧
        ∀ q ∈ added, q.isActive = true) ∧
    (refreshing = false →
      (refreshProxies mf refreshing pool fetched).2 =
        (if (pool.filter (fun p => p.isActive)).length < minProxies ∨
            0 < pool.length - (pool.filter (fun p => p.isActive)).length then
          some (max (minProxies - (pool.filter (fun p => p.isActive)).length)
                    (pool.length - (pool.filter (fun p => p.isActive)).length))
        else none)) := by
  refine ⟨?_, ?_, ?_, ?_, ?_⟩
  · intro h
    subst h
    rfl
  · intro h hbig hfail
    subst h
    have hrem : removeFailedProxies mf pool
        = (pool.filter (fun p => p.isActive)).map
            (fun p => freshEndpoint p.host p.port p.protocol mf) := by
      unfold removeFailedProxies
      rw [if_pos hfail]
    simp only [refreshProxies]
    rw [if_neg Bool.false_ne_true, if_pos hbig, hrem]
    split
    · refine ⟨_, rfl, ?_⟩
      intro q hq
      obtain ⟨c, _, rfl⟩ := List.mem_map.mp hq
      rfl
    · exact ⟨[], by simp, by simp⟩
  · intro h hbig hfail
    subst h
    have hrem : removeFailedProxies mf pool = pool := by
      unfold removeFailedProxies
      rw [if_neg (by omega)]
    simp only [refreshProxies]
    rw [if_neg Bool.false_ne_true, if_pos hbig, hrem]
    split
    · refine ⟨_, rfl, ?_⟩
      intro q hq
      obtain ⟨c, _, rfl⟩ := List.mem_map.mp hq
      rfl
    · exact ⟨[], by simp, by simp⟩
  · intro h hsmall
    subst h
    simp only [refreshProxies]
    rw [if_neg Bool.false_ne_true,
        if_neg (show ¬ maxProxies < pool.length by omega)]
    split
    · refine ⟨_, rfl, ?_⟩
      intro q hq
      obtain ⟨c, _, rfl⟩ := List.mem_map.mp hq
      rfl
    · exact ⟨[], by simp, by simp⟩
  · intro h
    subst h
    simp only [refreshProxies]
    rw [if_neg Bool.false_ne_true]
    by_cases hcond : (pool.filter (fun p => p.isActive)).length < minProxies ∨
        0 < pool.length - (pool.filter (fun p => p.isActive)).length
    · rw [if_pos (by simp only [Bool.or_eq_true, decide_eq_true_eq]; exact hcond),
          if_pos hcond]
    · rw [if_neg (by simp only [Bool.or_eq_true, decide_eq_true_eq]; exact hcond),
          if_neg hcond]

/-- C8 witness: a concurrent refresh call is a no-op on a pool with one
inactive endpoint, and on a sixteen-endpoint pool with one failed entry the
refresh rebuilds the pool from only its fifteen currently-active endpoints
before appending active fresh candidates. -/
theorem c8_witness :
    (refreshProxies 3 true [⟨"a", 1, "http", none, none, false, 0, 3, 3⟩] []
      = ([⟨"a", 1, "http", none, none, false, 0, 3, 3⟩], none)) ∧
    (∃ added, (refreshProxies 3 false bigPoolExample [⟨"b", 2, "http"⟩]).1
        = (bigPoolExample.filter (fun p => p.isActive)).map
            (fun p => freshEndpoint p.host p.port p.protocol 3) ++ added ∧
      ∀ q ∈ added, q.isActive = true) :=
  ⟨(c8_refresh_behavior 3 true [⟨"a", 1, "http", none, none, false, 0, 3, 3⟩] []).1 rfl,
   (c8_refresh_behavior 3 false bigPoolExample [⟨"b", 2, "http"⟩]).2.1 rfl
     (by decide) (by decide)⟩

/- ===================== Pool helper lemmas ===================== -/

/-- Helper: proxyAt agrees with list indexing inside the pool bounds. -/
theorem proxyAt_eq_getElem (ps : List Endpoint) (i : Nat) (h : i < ps.length) :
    proxyAt ps i = ps[i] := by
  unfold proxyAt
  rw [List.get?_eq_getElem?, List.getElem?_eq_getElem h]
  rfl

/-- Helper: a pool index is available exactly when it is in range and its
endpoint is active. -/
theorem mem_availableIdx {ps : List Endpoint} {i : Nat} :
    i ∈ availableIdx ps ↔ i < ps.length ∧ (proxyAt ps i).isActive = true := by
  unfold availableIdx
  rw [List.mem_filter, List.mem_range]

/-- Helper: availableIdx is empty exactly when every pool endpoint is
inactive. -/
theorem availableIdx_nil {ps : List Endpoint} :
    availableIdx ps = [] ↔ ∀ p ∈ ps, p.isActive = false := by
  unfold availableIdx
  rw [List.filter_eq_nil_iff]
  constructor
  · intro h p hp
    obtain ⟨i, hi, rfl⟩ := List.mem_iff_getElem.mp hp
    have h2 := h i (List.mem_range.mpr hi)
    rw [proxyAt_eq_getElem ps i hi] at h2
    simpa using h2
  · intro h i hi
    rw [List.mem_range] at hi
    rw [proxyAt_eq_getElem ps i hi]
    simp [h (ps[i]) (List.getElem_mem hi)]

/-- Helper: a fold that always keeps one of its two arguments stays within
the starting element and the folded list. -/
theorem foldl_choice_mem (f : Nat → Nat → Nat) (hf : ∀ x y, f x y = x ∨ f x y = y) :
    ∀ (l : List Nat) (a : Nat), l.foldl f a ∈ a :: l := by
  intro l
  induction l with
  | nil => intro a; simp
  | cons c t ih =>
    intro a
    have h := ih (f a c)
    rcases hf a c with h1 | h1 <;> rw [List.foldl_cons] <;>
      rcases List.mem_cons.mp h with h2 | h2 <;> simp_all [List.mem_cons]

/-- Helper: whichever index getNextProxy selects is an available index, and
the returned endpoint is that entry stamped with the selection time. -/
theorem getNextProxy_selects (strat : RotationStrategy) (s : PoolState)
    (now rand i : Nat) (p : Endpoint)
    (h : (getNextProxy strat s now rand).1 = some (i, p)) :
    i ∈ availableIdx s.proxies ∧ p = { proxyAt s.proxies i with lastUsed := now } := by
  cases havail : availableIdx s.proxies with
  | nil => simp [getNextProxy, havail] at h
  | cons a rest =>
    cases strat with
    | roundRobin =>
      simp only [getNextProxy, havail, Option.some.injEq, Prod.mk.injEq] at h
      obtain ⟨hi, hp⟩ := h
      subst hi
      refine ⟨?_, hp.symm⟩
      cases hf : (a :: rest).find? (fun j => decide (s.currentIndex ≤ j)) with
      | none => simp [hf]
      | some b => simpa [hf] using List.mem_of_find?_eq_some hf
    | random =>
      simp only [getNextProxy, havail, Option.some.injEq, Prod.mk.injEq] at h
      obtain ⟨hi, hp⟩ := h
      subst hi
      refine ⟨?_, hp.symm⟩
      exact List.get_mem _ _ _
    | leastUsed =>
      simp only [getNextProxy, havail, Option.some.injEq, Prod.mk.injEq] at h
      obtain ⟨hi, hp⟩ := h
      subst hi
      refine ⟨?_, hp.symm⟩
      refine foldl_choice_mem _ (fun x y => ?_) rest a
      by_cases hc : (proxyAt s.proxies x).lastUsed < (proxyAt s.proxies y).lastUsed
      · exact Or.inl (by simp [hc])
      · exact Or.inr (by simp [hc])

/- ===================== Claim C6 ===================== -/

/-- C6: getNextProxy returns none exactly when no pool endpoint is active,
and under every rotation strategy any endpoint it returns is active. -/
theorem c6_getNextProxy_only_active (strat : RotationStrategy) (s : PoolState)
    (now rand : Nat) :
    ((getNextProxy strat s now rand).1 = none ↔ ∀ p ∈ s.proxies, p.isActive = false) ∧
    (∀ i p, (getNextProxy strat s now rand).1 = some (i, p) → p.isActive = true) := by
  constructor
  · cases havail : availableIdx s.proxies with
    | nil =>
      simp only [getNextProxy, havail]
      simpa using availableIdx_nil.mp havail
    | cons a rest =>
      have ha : a ∈ availableIdx s.proxies := by
        rw [havail]; exact List.mem_cons_self a rest
      obtain ⟨halen, hact⟩ := mem_availableIdx.mp ha
      apply iff_of_false
      · cases strat <;> simp [getNextProxy, havail]
      · intro hall
        have h2 := hall (s.proxies[a]) (List.getElem_mem halen)
        rw [proxyAt_eq_getElem s.proxies a halen, h2] at hact
        cases hact
  · intro i p h
    obtain ⟨hmem, hp⟩ := getNextProxy_selects strat s now rand i p h
    obtain ⟨hlen, hact⟩ := mem_availableIdx.mp hmem
    rw [hp]
    exact hact

/- ===================== Claim C7 ===================== -/

/-- Helper: the first element of range' at or above c is c itself when c
lies inside the range. -/
theorem find_range'_ge : ∀ (n s c : Nat), s ≤ c → c < s + n →
    (List.range' s n).find? (fun i => decide (c ≤ i)) = some c := by
  intro n
  induction n with
  | zero =>
    intro s c h1 h2
    omega
  | succ m ih =>
    intro s c h1 h2
    rw [List.range'_succ]
    by_cases hsc : c ≤ s
    · have hse : s = c := by omega
      subst hse
      simp [List.find?]
    · rw [List.find?]
      have hd : (decide (c ≤ s)) = false := by
        simp
        omega
      rw [hd]
      exact ih (s + 1) c (by omega) (by omega)

/-- Helper: the first index of range n at or above c is c when c < n. -/
theorem find_range_ge (c n : Nat) (h : c < n) :
    (List.range n).find? (fun i => decide (c ≤ i)) = some c := by
  rw [List.range_eq_range' n]
  exact find_range'_ge n 0 c (Nat.zero_le c) (by omega)

/-- Helper: when every endpoint is active the available indices are exactly
all pool positions. -/
theorem availableIdx_all_active (ps : List Endpoint)
    (h : ∀ p ∈ ps, p.isActive = true) : availableIdx ps = List.range ps.length := by
  unfold availableIdx
  apply List.filter_eq_self.mpr
  intro i hi
  rw [List.mem_range] at hi
  rw [proxyAt_eq_getElem ps i hi]
  simpa using h _ (List.getElem_mem hi)

/-- Helper: on an all-active pool with an in-range cursor, a round-robin
getNextProxy call selects the cursor position, advances the cursor by one
modulo the pool size, and keeps every endpoint active. -/
theorem getNext_rr_all_active (s : PoolState)
    (hact : ∀ p ∈ s.proxies, p.isActive = true) (hpos : 0 < s.proxies.length)
    (hc : s.currentIndex < s.proxies.length) (now rand : Nat) :
    (getNextProxy RotationStrategy.roundRobin s now rand).1.map Prod.fst
        = some s.currentIndex ∧
    (getNextProxy RotationStrategy.roundRobin s now rand).2.currentIndex
        = (s.currentIndex + 1) % s.proxies.length ∧
    (getNextProxy RotationStrategy.roundRobin s now rand).2.proxies.length
        = s.proxies.length ∧
    (∀ p ∈ (getNextProxy RotationStrategy.roundRobin s now rand).2.proxies,
      p.isActive = true) := by
  have havail := availableIdx_all_active s.proxies hact
  obtain ⟨a, rest, hcons⟩ : ∃ a rest, availableIdx s.proxies = a :: rest := by
    rw [havail]
    cases hr : List.range s.proxies.length with
    | nil =>
      rw [List.range_eq_nil] at hr
      omega
    | cons x xs => exact ⟨x, xs, rfl⟩
  have hfind : (a :: rest).find? (fun i => decide (s.currentIndex ≤ i))
      = some s.currentIndex := by
    rw [← hcons, havail]
    exact find_range_ge _ _ hc
  have hclen : s.currentIndex < s.proxies.length := hc
  refine ⟨?_, ?_, ?_, ?_⟩
  · simp only [getNextProxy, hcons, hfind, Option.getD_some, Option.map_some']
  · simp only [getNextProxy, hcons, hfind, Option.getD_some]
  · simp only [getNextProxy, hcons]
    simp
  · simp only [getNextProxy, hcons, hfind, Option.getD_some]
    intro p hp
    rcases List.mem_or_eq_of_mem_set hp with h1 | h1
    · exact hact p h1
    · subst h1
      show (proxyAt s.proxies s.currentIndex).isActive = true
      rw [proxyAt_eq_getElem _ _ hclen]
      exact hact _ (List.getElem_mem hclen)

/-- Helper: on an all-active pool, k consecutive round-robin calls return the
cursor positions in rotating order. -/
theorem runNexts_rr (k : Nat) : ∀ (s : PoolState),
    (∀ p ∈ s.proxies, p.isActive = true) → 0 < s.proxies.length →
    s.currentIndex < s.proxies.length →
    (runNexts k s).1 = (List.range k).map
      (fun j => (s.currentIndex + j) % s.proxies.length) := by
  induction k with
  | zero =>
    intro s _ _ _
    rfl
  | succ m ih =>
    intro s hact hpos hc
    obtain ⟨h1, h2, h3, h4⟩ := getNext_rr_all_active s hact hpos hc 0 0
    obtain ⟨sel, hsel⟩ : ∃ sel,
        (getNextProxy RotationStrategy.roundRobin s 0 0).1 = some sel := by
      cases ho : (getNextProxy RotationStrategy.roundRobin s 0 0).1 with
      | none =>
        rw [ho] at h1
        simp at h1
      | some v => exact ⟨v, rfl⟩
    have hselfst : sel.1 = s.currentIndex := by
      rw [hsel] at h1
      simpa using h1
    have hih := ih (getNextProxy RotationStrategy.roundRobin s 0 0).2 h4
      (by rw [h3]; exact hpos) (by rw [h2, h3]; exact Nat.mod_lt _ hpos)
    rw [h2, h3] at hih
    simp only [runNexts, hsel]
    rw [hih, hselfst]
    rw [List.range_succ_eq_map, List.map_cons, List.map_map]
    congr 1
    · simp [Nat.mod_eq_of_lt hc]
    · apply List.map_congr_left
      intro j _
      show ((s.currentIndex + 1) % s.proxies.length + j) % s.proxies.length
          = (s.currentIndex + (j + 1)) % s.proxies.length
      rw [Nat.mod_add_mod]
      congr 1
      omega

/-- C7: with the round-robin strategy, on any pool of N endpoints that are
all active and an in-range cursor, N consecutive getNextProxy calls with no
intervening mutations select the pool positions in stable rotating order
starting at the cursor, visiting each of the N endpoints exactly once. -/
theorem c7_round_robin (s : PoolState) (N : Nat) (hN : s.proxies.length = N)
    (hpos : 0 < N) (hc : s.currentIndex < N)
    (hact : ∀ p ∈ s.proxies, p.isActive = true) :
    (runNexts N s).1 = (List.range N).map (fun j => (s.currentIndex + j) % N) ∧
    (runNexts N s).1.Nodup ∧
    (∀ i, i ∈ (runNexts N s).1 ↔ i < N) := by
  subst hN
  have heq := runNexts_rr s.proxies.length s hact hpos hc
  refine ⟨heq, ?_, ?_⟩
  · rw [heq]
    apply List.Nodup.map_on ?_ (List.nodup_range _)
    intro x hx y hy hxy
    rw [List.mem_range] at hx hy
    have h1 : (s.currentIndex + x) % s.proxies.length
        = (s.currentIndex + y) % s.proxies.length := hxy
    have h2 : x % s.proxies.length = y % s.proxies.length :=
      Nat.ModEq.add_left_cancel' s.currentIndex h1
    rwa [Nat.mod_eq_of_lt hx, Nat.mod_eq_of_lt hy] at h2
  · intro i
    rw [heq]
    constructor
    · intro hi
      obtain ⟨j, hj, rfl⟩ := List.mem_map.mp hi
      exact Nat.mod_lt _ hpos
    · intro hi
      apply List.mem_map.mpr
      by_cases hci : s.currentIndex ≤ i
      · refine ⟨i - s.currentIndex, List.mem_range.mpr (by omega), ?_⟩
        have h3 : s.currentIndex + (i - s.currentIndex) = i := by omega
        rw [h3, Nat.mod_eq_of_lt hi]
      · refine ⟨i + s.proxies.length - s.currentIndex,
          List.mem_range.mpr (by omega), ?_⟩
        have h3 : s.currentIndex + (i + s.proxies.length - s.currentIndex)
            = i + s.proxies.length := by omega
        rw [h3, Nat.add_mod_right, Nat.mod_eq_of_lt hi]

/-- C7 witness: three consecutive round-robin selections on a pool of three
active endpoints with cursor 1 return positions 1, 2, 0: each endpoint
exactly once, in rotating order. -/
theorem c7_witness :
    (runNexts 3 ⟨[freshEndpoint "a" 1 "http" 3, freshEndpoint "b" 2 "http" 3,
        freshEndpoint "c" 3 "http" 3], 1, []⟩).1
      = (List.range 3).map (fun j => (1 + j) % 3) ∧
    (runNexts 3 ⟨[freshEndpoint "a" 1 "http" 3, freshEndpoint "b" 2 "http" 3,
        freshEndpoint "c" 3 "http" 3], 1, []⟩).1.Nodup ∧
    (∀ i, i ∈ (runNexts 3 ⟨[freshEndpoint "a" 1 "http" 3, freshEndpoint "b" 2 "http" 3,
        freshEndpoint "c" 3 "http" 3], 1, []⟩).1 ↔ i < 3) :=
  c7_round_robin ⟨[freshEndpoint "a" 1 "http" 3, freshEndpoint "b" 2 "http" 3,
    freshEndpoint "c" 3 "http" 3], 1, []⟩ 3 rfl (by decide) (by decide) (by decide)

/- ===================== Claim C4 ===================== -/

/-- Helper: reading a set pool at the written index inside bounds. -/
theorem proxyAt_set_self (ps : List Endpoint) (i : Nat) (v : Endpoint)
    (h : i < ps.length) : proxyAt (ps.set i v) i = v := by
  unfold proxyAt
  rw [List.get?_eq_getElem?]
  simp [List.getElem?_set_self, h]

/-- Helper: reading a set pool away from the written index. -/
theorem proxyAt_set_ne (ps : List Endpoint) (i j : Nat) (v : Endpoint)
    (h : i ≠ j) : proxyAt (ps.set i v) j = proxyAt ps j := by
  unfold proxyAt
  rw [List.get?_eq_getElem?, List.get?_eq_getElem?, List.getElem?_set_ne h]

/-- Helper: reading an extended pool below the old length. -/
theorem proxyAt_append_left (ps qs : List Endpoint) (i : Nat) (h : i < ps.length) :
    proxyAt (ps ++ qs) i = proxyAt ps i := by
  unfold proxyAt
  rw [List.get?_eq_getElem?, List.get?_eq_getElem?, List.getElem?_append_left h]

/-- Helper: reading an extended pool at the old length yields the appended
endpoint. -/
theorem proxyAt_append_len (ps : List Endpoint) (q : Endpoint) :
    proxyAt (ps ++ [q]) ps.length = q := by
  unfold proxyAt
  rw [List.get?_eq_getElem?, List.getElem?_append_right (le_refl _)]
  simp

/-- Helper: reading a mapped pool inside bounds. -/
theorem proxyAt_map (f : Endpoint → Endpoint) (ps : List Endpoint) (j : Nat)
    (h : j < ps.length) : proxyAt (ps.map f) j = f (proxyAt ps j) := by
  unfold proxyAt
  rw [List.get?_eq_getElem?, List.get?_eq_getElem?, List.getElem?_map]
  rw [List.getElem?_eq_getElem h]
  rfl

/-- Helper: the pool invariant phrased through the total reader proxyAt. -/
theorem invPool_iff (s : PoolState) :
    InvPool s ↔ ∀ i, i < s.proxies.length →
      ((proxyAt s.proxies i).maxFailures ≤ (proxyAt s.proxies i).failureCount →
        (proxyAt s.proxies i).isActive = false ∧ i ∈ s.timers) := by
  unfold InvPool
  constructor
  · intro h i hi
    rw [proxyAt_eq_getElem s.proxies i hi]
    exact h i hi
  · intro h i hi
    have h2 := h i hi
    rw [proxyAt_eq_getElem s.proxies i hi] at h2
    exact h2

/-- Helper: getNextProxy either leaves the state unchanged or stamps one
available index with the selection time, keeping the timers. -/
theorem getNextProxy_shape (strat : RotationStrategy) (s : PoolState) (now rand : Nat) :
    (getNextProxy strat s now rand).2 = s ∨
    ∃ n c, n ∈ availableIdx s.proxies ∧
      (getNextProxy strat s now rand).2 =
        { proxies := s.proxies.set n { proxyAt s.proxies n with lastUsed := now },
          currentIndex := c, timers := s.timers } := by
  cases havail : availableIdx s.proxies with
  | nil =>
    left
    simp [getNextProxy, havail]
  | cons a rest =>
    right
    cases strat with
    | roundRobin =>
      refine ⟨((a :: rest).find? (fun j => decide (s.currentIndex ≤ j))).getD a,
        (((a :: rest).find? (fun j => decide (s.currentIndex ≤ j))).getD a + 1)
          % s.proxies.length, ?_, ?_⟩
      · cases hf : (a :: rest).find? (fun j => decide (s.currentIndex ≤ j)) with
        | none => simp [hf]
        | some b => simpa [hf] using List.mem_of_find?_eq_some hf
      · simp only [getNextProxy, havail]
    | random =>
      refine ⟨(a :: rest).get ⟨rand % (rest.length + 1), Nat.mod_lt _ (Nat.succ_pos rest.length)⟩,
        s.currentIndex, ?_, ?_⟩
      · exact List.get_mem _ _ _
      · simp only [getNextProxy, havail]
    | leastUsed =>
      refine ⟨rest.foldl (fun prev cur =>
          if (proxyAt s.proxies prev).lastUsed < (proxyAt s.proxies cur).lastUsed
          then prev else cur) a, s.currentIndex, ?_, ?_⟩
      · refine foldl_choice_mem _ (fun x y => ?_) rest a
        by_cases hc : (proxyAt s.proxies x).lastUsed < (proxyAt s.proxies y).lastUsed
        · exact Or.inl (by simp [hc])
        · exact Or.inr (by simp [hc])
      · simp only [getNextProxy, havail]

/-- Helper: getNextProxy changes only lastUsed stamps and the cursor; the
timer list, the pool length, and every endpoint's activity, failure count
and maxFailures are unchanged. -/
theorem getNextProxy_fields (strat : RotationStrategy) (s : PoolState) (now rand : Nat) :
    (getNextProxy strat s now rand).2.timers = s.timers ∧
    (getNextProxy strat s now rand).2.proxies.length = s.proxies.length ∧
    ∀ j, ((proxyAt (getNextProxy strat s now rand).2.proxies j).isActive
            = (proxyAt s.proxies j).isActive ∧
          (proxyAt (getNextProxy strat s now rand).2.proxies j).failureCount
            = (proxyAt s.proxies j).failureCount ∧
          (proxyAt (getNextProxy strat s now rand).2.proxies j).maxFailures
            = (proxyAt s.proxies j).maxFailures) := by
  rcases getNextProxy_shape strat s now rand with h | ⟨n, c, hn, h⟩
  · rw [h]
    exact ⟨rfl, rfl, fun j => ⟨rfl, rfl, rfl⟩⟩
  · rw [h]
    refine ⟨rfl, by simp, ?_⟩
    intro j
    by_cases hjn : j = n
    · subst hjn
      rw [proxyAt_set_self _ _ _ (mem_availableIdx.mp hn).1]
      exact ⟨rfl, rfl, rfl⟩
    · rw [proxyAt_set_ne _ _ _ _ (fun he => hjn he.symm)]
      exact ⟨rfl, rfl, rfl⟩

/-- Helper: getNextProxy preserves the configured maxFailures on every pool
endpoint. -/
theorem getNextProxy_max (strat : RotationStrategy) (s : PoolState) (now rand mf : Nat)
    (hmax : ∀ p ∈ s.proxies, p.maxFailures = mf) :
    ∀ p ∈ (getNextProxy strat s now rand).2.proxies, p.maxFailures = mf := by
  rcases getNextProxy_shape strat s now rand with h | ⟨n, c, hn, h⟩
  · rw [h]
    exact hmax
  · rw [h]
    intro p hp
    rcases List.mem_or_eq_of_mem_set hp with h1 | h1
    · exact hmax p h1
    · subst h1
      show (proxyAt s.proxies n).maxFailures = mf
      obtain ⟨hlen, _⟩ := mem_availableIdx.mp hn
      rw [proxyAt_eq_getElem _ _ hlen]
      exact hmax _ (List.getElem_mem hlen)

/-- Helper: every pool operation preserves the amended C4 invariant together
with the uniform maxFailures stamp. -/
theorem stepPool_inv (mf : Nat) (strat : RotationStrategy) (hmf : 0 < mf)
    (s : PoolState) (hinv : InvPool s) (hmax : ∀ p ∈ s.proxies, p.maxFailures = mf)
    (op : PoolOp) :
    InvPool (stepPool mf strat s op) ∧
    ∀ p ∈ (stepPool mf strat s op).proxies, p.maxFailures = mf := by
  have hinv2 := (invPool_iff s).mp hinv
  cases op with
  | addProxy hh pp pr =>
    refine ⟨(invPool_iff _).mpr ?_, ?_⟩
    · intro i hi hcount
      simp only [stepPool] at hi hcount ⊢
      by_cases hilt : i < s.proxies.length
      · rw [proxyAt_append_left _ _ _ hilt] at hcount ⊢
        exact hinv2 i hilt hcount
      · have hieq : i = s.proxies.length := by
          rw [List.length_append] at hi
          simp only [List.length_cons, List.length_nil] at hi
          omega
        subst hieq
        rw [proxyAt_append_len] at hcount
        exact absurd hcount (by simp only [freshEndpoint]; omega)
    · intro p hp
      simp only [stepPool] at hp
      rcases List.mem_append.mp hp with h1 | h1
      · exact hmax p h1
      · rw [List.mem_singleton] at h1
        subst h1
        rfl
  | getNext now rand =>
    obtain ⟨ht, hlen, hflds⟩ := getNextProxy_fields strat s now rand
    refine ⟨(invPool_iff _).mpr ?_, getNextProxy_max strat s now rand mf hmax⟩
    intro i hi hcount
    simp only [stepPool] at hi hcount ⊢
    rw [hlen] at hi
    obtain ⟨hA, hC, hM⟩ := hflds i
    rw [hM, hC] at hcount
    rw [hA, ht]
    exact hinv2 i hi hcount
  | reportSuccess i0 =>
    cases hp : s.proxies.get? i0 with
    | none =>
      simp only [stepPool, hp]
      exact ⟨hinv, hmax⟩
    | some p =>
      obtain ⟨hi0, hpi⟩ : ∃ h : i0 < s.proxies.length, s.proxies[i0] = p := by
        rw [List.get?_eq_getElem?] at hp
        exact ⟨(List.getElem?_eq_some_iff.mp hp).1, (List.getElem?_eq_some_iff.mp hp).2⟩
      refine ⟨(invPool_iff _).mpr ?_, ?_⟩
      · intro j hj hcount
        simp only [stepPool, hp] at hj hcount ⊢
        rw [List.length_set] at hj
        by_cases hji : j = i0
        · subst hji
          rw [proxyAt_set_self _ _ _ hj] at hcount ⊢
          have hcp : p.maxFailures ≤ p.failureCount - 1 := hcount
          have hc2 : (proxyAt s.proxies j).maxFailures ≤ (proxyAt s.proxies j).failureCount := by
            rw [proxyAt_eq_getElem _ _ hj, hpi]
            omega
          have hres := hinv2 j hj hc2
          rw [proxyAt_eq_getElem _ _ hj, hpi] at hres
          exact ⟨hres.1, hres.2⟩
        · rw [proxyAt_set_ne _ _ _ _ (fun he => hji he.symm)] at hcount ⊢
          exact hinv2 j hj hcount
      · intro q hq
        simp only [stepPool, hp] at hq
        rcases List.mem_or_eq_of_mem_set hq with h1 | h1
        · exact hmax q h1
        · subst h1
          show p.maxFailures = mf
          exact hmax p (by rw [← hpi]; exact List.getElem_mem hi0)
  | reportFailure i0 =>
    cases hp : s.proxies.get? i0 with
    | none =>
      simp only [stepPool, hp]
      exact ⟨hinv, hmax⟩
    | some p =>
      obtain ⟨hi0, hpi⟩ : ∃ h : i0 < s.proxies.length, s.proxies[i0] = p := by
        rw [List.get?_eq_getElem?] at hp
        exact ⟨(List.getElem?_eq_some_iff.mp hp).1, (List.getElem?_eq_some_iff.mp hp).2⟩
      have hpmem : p ∈ s.proxies := by rw [← hpi]; exact List.getElem_mem hi0
      by_cases hcross : p.maxFailures ≤ p.failureCount + 1
      · have hre : reportFailureE p =
            ({ p with failureCount := p.failureCount + 1, isActive := false },
             some failureCooldown) := by
          unfold reportFailureE
          rw [if_pos hcross]
        refine ⟨(invPool_iff _).mpr ?_, ?_⟩
        · intro j hj hcount
          simp only [stepPool, hp, hre, Option.isSome_some, if_pos] at hj hcount ⊢
          rw [List.length_set] at hj
          by_cases hji : j = i0
          · subst hji
            rw [proxyAt_set_self _ _ _ hj]
            exact ⟨rfl, List.mem_cons_self _ _⟩
          · rw [proxyAt_set_ne _ _ _ _ (fun he => hji he.symm)] at hcount
            have hres := hinv2 j hj hcount
            rw [proxyAt_set_ne _ _ _ _ (fun he => hji he.symm)]
            exact ⟨hres.1, List.mem_cons_of_mem _ hres.2⟩
        · intro q hq
          simp only [stepPool, hp, hre] at hq
          rcases List.mem_or_eq_of_mem_set hq with h1 | h1
          · exact hmax q h1
          · subst h1
            show p.maxFailures = mf
            exact hmax p hpmem
      · have hre : reportFailureE p =
            ({ p with failureCount := p.failureCount + 1 }, none) := by
          unfold reportFailureE
          rw [if_neg hcross]
        refine ⟨(invPool_iff _).mpr ?_, ?_⟩
        · intro j hj hcount
          simp only [stepPool, hp, hre, Option.isSome_none] at hj hcount ⊢
          rw [List.length_set] at hj
          by_cases hji : j = i0
          · subst hji
            rw [proxyAt_set_self _ _ _ hj] at hcount
            exact absurd hcount hcross
          · rw [proxyAt_set_ne _ _ _ _ (fun he => hji he.symm)] at hcount
            have hres := hinv2 j hj hcount
            rw [proxyAt_set_ne _ _ _ _ (fun he => hji he.symm)]
            exact hres
        · intro q hq
          simp only [stepPool, hp, hre] at hq
          rcases List.mem_or_eq_of_mem_set hq with h1 | h1
          · exact hmax q h1
          · subst h1
            show p.maxFailures = mf
            exact hmax p hpmem
  | resetFailureCounts =>
    refine ⟨(invPool_iff _).mpr ?_, ?_⟩
    · intro j hj hcount
      simp only [stepPool] at hj hcount ⊢
      rw [List.length_map] at hj
      rw [proxyAt_map _ _ _ hj] at hcount
      have hqmax : (proxyAt s.proxies j).maxFailures = mf := by
        rw [proxyAt_eq_getElem _ _ hj]
        exact hmax _ (List.getElem_mem hj)
      have : mf ≤ 0 := by
        rw [← hqmax]
        exact hcount
      omega
    · intro q hq
      simp only [stepPool] at hq
      obtain ⟨p0, hp0, rfl⟩ := List.mem_map.mp hq
      show p0.maxFailures = mf
      exact hmax p0 hp0
  | timerFire i0 =>
    by_cases hmem : i0 ∈ s.timers
    · cases hp : s.proxies.get? i0 with
      | some p =>
        obtain ⟨hi0, hpi⟩ : ∃ h : i0 < s.proxies.length, s.proxies[i0] = p := by
          rw [List.get?_eq_getElem?] at hp
          exact ⟨(List.getElem?_eq_some_iff.mp hp).1, (List.getElem?_eq_some_iff.mp hp).2⟩
        refine ⟨(invPool_iff _).mpr ?_, ?_⟩
        · intro j hj hcount
          simp only [stepPool, if_pos hmem, hp] at hj hcount ⊢
          rw [List.length_set] at hj
          by_cases hji : j = i0
          · subst hji
            rw [proxyAt_set_self _ _ _ hj] at hcount
            have hqmax : p.maxFailures = mf := hmax p (by rw [← hpi]; exact List.getElem_mem hi0)
            have : mf ≤ 0 := by
              rw [← hqmax]
              exact hcount
            omega
          · rw [proxyAt_set_ne _ _ _ _ (fun he => hji he.symm)] at hcount
            have hres := hinv2 j hj hcount
            rw [proxyAt_set_ne _ _ _ _ (fun he => hji he.symm)]
            exact ⟨hres.1, (List.mem_erase_of_ne hji).mpr hres.2⟩
        · intro q hq
          simp only [stepPool, if_pos hmem, hp] at hq
          rcases List.mem_or_eq_of_mem_set hq with h1 | h1
          · exact hmax q h1
          · subst h1
            show p.maxFailures = mf
            exact hmax p (by rw [← hpi]; exact List.getElem_mem hi0)
      | none =>
        have hout : s.proxies.length ≤ i0 := by
          rw [List.get?_eq_getElem?] at hp
          exact List.getElem?_eq_none_iff.mp hp
        refine ⟨(invPool_iff _).mpr ?_, ?_⟩
        · intro j hj hcount
          simp only [stepPool, if_pos hmem, hp] at hj hcount ⊢
          have hres := hinv2 j hj hcount
          refine ⟨hres.1, ?_⟩
          exact (List.mem_erase_of_ne (by omega)).mpr hres.2
        · intro q hq
          simp only [stepPool, if_pos hmem, hp] at hq
          exact hmax q hq
    · simp only [stepPool, if_neg hmem]
      exact ⟨hinv, hmax⟩

/-- C4 amended: in every state reachable from the empty pool by adds,
selections, success reports, failure reports, resets and timer firings, any
endpoint whose failure count has reached maxFailures is inactive and has a
pending reactivation timer (the failure count itself is not bounded by
maxFailures, as the counterexample shows). -/
theorem c4_invariant (mf : Nat) (strat : RotationStrategy) (hmf : 0 < mf)
    (ops : List PoolOp) : InvPool (runPool mf strat ops) := by
  have hgen : ∀ (l : List PoolOp) (s : PoolState), InvPool s →
      (∀ p ∈ s.proxies, p.maxFailures = mf) →
      InvPool (l.foldl (stepPool mf strat) s) ∧
      ∀ p ∈ (l.foldl (stepPool mf strat) s).proxies, p.maxFailures = mf := by
    intro l
    induction l with
    | nil =>
      intro s h1 h2
      exact ⟨h1, h2⟩
    | cons op rest ih =>
      intro s h1 h2
      rw [List.foldl_cons]
      have hstep := stepPool_inv mf strat hmf s h1 h2 op
      exact ih _ hstep.1 hstep.2
  exact (hgen ops initPool (fun i hi => absurd hi (by simp [initPool]))
    (fun p hp => absurd hp (by simp [initPool]))).1

/-- C4 counterexample: four failure reports on one endpoint (as the download
stderr handler can produce) drive its failure count to 4, strictly above its
maxFailures of 3, so the claimed bound failureCount ≤ maxFailures is false
in a reachable state. -/
theorem c4_counterexample :
    (runPool 3 RotationStrategy.roundRobin
      [PoolOp.addProxy "h" 8080 "http", PoolOp.reportFailure 0, PoolOp.reportFailure 0,
       PoolOp.reportFailure 0, PoolOp.reportFailure 0]).proxies.map
        (fun p => (p.failureCount, p.maxFailures, p.isActive))
      = [(4, 3, false)] ∧
    ¬ ∀ p ∈ (runPool 3 RotationStrategy.roundRobin
      [PoolOp.addProxy "h" 8080 "http", PoolOp.reportFailure 0, PoolOp.reportFailure 0,
       PoolOp.reportFailure 0, PoolOp.reportFailure 0]).proxies,
        p.failureCount ≤ p.maxFailures :=
  ⟨by decide, by decide⟩

/-- C4 witness: the amended invariant holds after an add and a failure
report with the default maxFailures of 3. -/
theorem c4_witness :
    InvPool (runPool 3 RotationStrategy.roundRobin
      [PoolOp.addProxy "h" 8080 "http", PoolOp.reportFailure 0]) :=
  c4_invariant 3 RotationStrategy.roundRobin (by decide)
    [PoolOp.addProxy "h" 8080 "http", PoolOp.reportFailure 0]

/-- C6 witness: instantiation at a one-endpoint active pool under the
round-robin strategy. -/
theorem c6_witness :
    ((getNextProxy RotationStrategy.roundRobin
        ⟨[freshEndpoint "w" 1 "http" 3], 0, []⟩ 5 9).1 = none ↔
      ∀ p ∈ (⟨[freshEndpoint "w" 1 "http" 3], 0, []⟩ : PoolState).proxies,
        p.isActive = false) ∧
    (∀ i p, (getNextProxy RotationStrategy.roundRobin
        ⟨[freshEndpoint "w" 1 "http" 3], 0, []⟩ 5 9).1 = some (i, p) →
      p.isActive = true) :=
  c6_getNextProxy_only_active RotationStrategy.roundRobin
    ⟨[freshEndpoint "w" 1 "http" 3], 0, []⟩ 5 9
